import Mathlib

/-!
Shallow embedding of the game-state machine of the "School Who?" party game
(Convex backend `convex/schema.ts` players mutations, `convex/games.ts` game
mutations, and the derived client-side tally/outcome logic of
`app/results/[id].tsx` and the timer effect of the game screen).

Conventions:
* A game's players table is a `List Player` in insertion order (Convex's
  `by_game` index orders records of one game by creation time, so `.collect()`
  and `.order("asc")` both return insertion order).
* A player id is its position in that list.
* Injected randomness: the word pick is an index into the word pool, and the
  rejection-sampling loop for imposters consumes a finite tape `draws` of
  random indices (`Math.floor(Math.random() * players.length)` values); the
  tape running out is modelled as `none`.
* JS numbers that hold timestamps/durations are modelled as `ℚ` (the timer
  code divides milliseconds by 1000); counts and indices are `Nat`.
-/

namespace SchoolWho

/-- Game status union from `convex/schema.ts`. -/
inductive GameStatus
  | lobby
  | playing
  | discussion
  | results
  | ended
deriving DecidableEq, Repr

/-- Game settings object from `convex/schema.ts`. -/
structure GameSettings where
  theme : String
  language : String
  trollMode : Bool
  timerEnabled : Bool
  timerDuration : ℚ
  numberOfImposters : Nat
  wordsPerRound : Nat
deriving DecidableEq, Repr

/-- A `games` row from `convex/schema.ts`. -/
structure Game where
  status : GameStatus
  currentPlayerIndex : Nat
  currentRound : Nat
  totalRounds : Nat
  selectedCategories : List String
  currentWord : Option String
  hintWord : Option String
  imposters : List Nat
  settings : GameSettings
  timerStartTime : Option ℚ
  votes : Option (List (String × Nat))
  gameCode : String
deriving DecidableEq, Repr

/-- A `players` row from `convex/schema.ts` (the owning `gameId` is implicit:
we model the players of a single game as one list). -/
structure Player where
  name : String
  color : String
  index : Nat
  isActive : Bool
deriving DecidableEq, Repr

/-- A `categories` row from `convex/schema.ts`; `words` is the list of
(word, hint) pairs. -/
structure Category where
  name : String
  emoji : String
  words : List (String × String)
  isDefault : Bool
deriving DecidableEq, Repr

/-- `players.addPlayer` (`convex/schema.ts`): queries all players of the game
(with no `isActive` filter), then inserts a new active player with
`index := existingPlayers.length`. -/
def addPlayer (ps : List Player) (name color : String) : List Player :=
  ps ++ [{ name := name, color := color, index := ps.length, isActive := true }]

/-- `players.getPlayers` (`convex/schema.ts`): active players of the game in
insertion order. -/
def activePlayers (ps : List Player) : List Player :=
  ps.filter (·.isActive)

/-- The index-compaction pass of `players.removePlayer`: walk the remaining
players in insertion order and give each active one the next dense index
(the source patches `index := i` over its filtered-active query). -/
def renumberFrom : Nat → List Player → List Player
  | _, [] => []
  | k, p :: rest =>
    if p.isActive then { p with index := k } :: renumberFrom (k + 1) rest
    else p :: renumberFrom k rest

/-- `players.removePlayer` (`convex/schema.ts`): if the player id exists, mark
it inactive, then renumber the remaining active players `0..n-1` in order. -/
def removePlayer (ps : List Player) (pid : Nat) : List Player :=
  match ps[pid]? with
  | none => ps
  | some p => renumberFrom 0 (ps.set pid { p with isActive := false })

/-- Concrete roster evolution: add three players, remove the second,
then add a fourth. -/
def c1Roster : List Player :=
  addPlayer (removePlayer (addPlayer (addPlayer (addPlayer [] "Ann" "red")
    "Ben" "blue") "Cem" "green") 1) "Dia" "gold"

/-- C1: Roster contiguity fails. After add,add,add,remove(1) the two active
players carry indices `[0, 1]` (active count 2), but the next `addPlayer`
assigns `index = 3` — the total row count including the inactive record —
rather than `currentActiveCount = 2`, leaving active indices `[0, 1, 3]`,
which has a gap and is not `{0, 1, 2}`. -/
theorem addPlayer_breaks_roster_contiguity :
    (activePlayers (removePlayer (addPlayer (addPlayer (addPlayer [] "Ann" "red")
        "Ben" "blue") "Cem" "green") 1)).map (·.index) = [0, 1] ∧
    (activePlayers c1Roster).map (·.index) = [0, 1, 3] ∧
    (activePlayers c1Roster).map (·.index) ≠ [0, 1, 2] := by
  refine ⟨rfl, rfl, ?_⟩
  decide

/-- `games.nextPlayer` (`convex/games.ts`) for an existing game:
`nextIndex = currentPlayerIndex + 1`; if `nextIndex >= players.length`
(active players) set status to discussion and re-anchor (or clear) the timer,
else just store the incremented index. There is no `status` guard. -/
def nextPlayer (g : Game) (activeCount : Nat) (now : ℚ) : Game :=
  let nextIndex := g.currentPlayerIndex + 1
  if activeCount ≤ nextIndex then
    { g with status := .discussion,
             timerStartTime := if g.settings.timerEnabled then some now else none }
  else
    { g with currentPlayerIndex := nextIndex }

/-- Iterated `nextPlayer`: call `k` uses the wall clock `nows k`. -/
def nextPlayerIter (g : Game) (activeCount : Nat) (nows : Nat → ℚ) : Nat → Game
  | 0 => g
  | k + 1 => nextPlayer (nextPlayerIter g activeCount nows k) activeCount (nows k)

/-- `games.submitVotes` (`convex/games.ts`): unconditionally patches
`status := results` and stores the votes record verbatim. No guard, no
completeness check. -/
def submitVotes (g : Game) (votes : List (String × Nat)) : Game :=
  { g with status := .results, votes := some votes }

/-- `handleSubmitVotes` of `app/results/[id].tsx`: the client refuses to call
the `submitVotes` mutation (showing an alert instead, i.e. `none`) unless
every active player's id has an entry in the locally assembled votes. -/
def handleSubmitVotes (g : Game) (activeIds : List String)
    (selectedVotes : List (String × Nat)) : Option Game :=
  if activeIds.all (fun pid => (selectedVotes.lookup pid).isSome) then
    some (submitVotes g selectedVotes)
  else
    none

/-- `games.resetToLobby` (`convex/games.ts`): patch back to a fresh lobby,
clearing the round-specific fields; all other game fields are untouched. -/
def resetToLobby (g : Game) : Game :=
  { g with status := .lobby, currentPlayerIndex := 0, currentRound := 1,
           currentWord := none, hintWord := none, imposters := [],
           timerStartTime := none, votes := none }

/-- `games.resetToLobby` seen as a transition on the whole game state
(games row, players rows): the mutation only patches the games row, so the
players table is untouched. -/
def resetToLobbyW : Game × List Player → Game × List Player
  | (g, ps) => (resetToLobby g, ps)

/-- The three distinct errors `games.startGame` can throw (in source order:
"Need at least 3 players to start", "Select at least one category",
"No words found in selected categories"). -/
inductive StartError
  | needAtLeastThreePlayers
  | selectAtLeastOneCategory
  | noWordsFound
deriving DecidableEq, Repr

/-- The candidate word pool of `games.startGame`: words of every category
whose name is among the game's selected categories, in table order. -/
def wordPool (cats : List Category) (selected : List String) : List (String × String) :=
  ((cats.filter (fun c => selected.contains c.name)).map (·.words)).flatten

/-- The rejection-sampling loop of `games.startGame`:
`while (imposterIndices.length < numberOfImposters) { draw; if fresh, push }`,
consuming a finite tape of random draws; `none` when the tape runs out before
the target size is reached. -/
def pickImposters (target : Nat) : List Nat → List Nat → Option (List Nat)
  | [], acc => if target ≤ acc.length then some acc else none
  | d :: rest, acc =>
    if target ≤ acc.length then some acc
    else if d ∈ acc then pickImposters target rest acc
    else pickImposters target rest (acc ++ [d])

/-- `games.startGame` (`convex/games.ts`) for an existing game. Checks, in
order: at least 3 active players, a selected category, a non-empty word pool;
each failing check throws (modelled as `some (.error e)`; a Convex mutation
that throws commits nothing). Otherwise picks the word at the random index
`wordPick`, clamps the imposter count to `activeCount - 1`, runs the
rejection-sampling loop on the tape `draws` (outer `none` = tape exhausted),
and patches the game into playing state. -/
def startGame (g : Game) (ps : List Player) (cats : List Category)
    (wordPick : Nat) (draws : List Nat) (now : ℚ) :
    Option (Except StartError Game) :=
  let players := activePlayers ps
  if players.length < 3 then some (.error .needAtLeastThreePlayers)
  else if g.selectedCategories.length = 0 then some (.error .selectAtLeastOneCategory)
  else
    let allWords := wordPool cats g.selectedCategories
    if allWords.length = 0 then some (.error .noWordsFound)
    else
      let randomWord := allWords.getD wordPick ("", "")
      let numberOfImposters := min g.settings.numberOfImposters (players.length - 1)
      match pickImposters numberOfImposters draws [] with
      | none => none
      | some imposterIndices =>
        some (.ok { g with
          status := .playing,
          currentPlayerIndex := 0,
          currentWord := some randomWord.1,
          hintWord := some randomWord.2,
          imposters := imposterIndices,
          timerStartTime := if g.settings.timerEnabled then some now else none })

/-- The committed games row after running `startGame`: a thrown error (or a
never-terminating selection loop) commits nothing, so the row is unchanged. -/
def applyStart (g : Game) : Option (Except StartError Game) → Game
  | some (.ok g') => g'
  | _ => g

/-- The timer effect of the game screen:
`elapsed = (Date.now() - timerStartTime) / 1000;`
`remaining = Math.max(0, timerDuration - elapsed)`.
Timestamps are in milliseconds, the duration in seconds. -/
def timeRemaining (timerStartTime timerDuration now : ℚ) : ℚ :=
  let elapsed := (now - timerStartTime) / 1000
  max 0 (timerDuration - elapsed)

/-- Vote count for roster index `i`: how many stored vote values equal `i`
(the `voteCounts` record built by `getVoteResults` in `app/results/[id].tsx`
from `Object.values(game.votes)`). -/
def voteCountFor (votes : List (String × Nat)) (i : Nat) : Nat :=
  ((votes.map (·.2)).filter (fun v => v = i)).length

/-- One entry of the results array built by `getVoteResults`:
`{ player, votes, isImposter }`, plus the roster index (the `index` argument
of the `players.map` callback) that determined the latter two fields. -/
structure VoteResult where
  player : Player
  rosterIndex : Nat
  votes : Nat
  isImposter : Bool
deriving DecidableEq, Repr

/-- The unsorted results array of `getVoteResults`: one entry per active
player in roster order, pairing it with its vote count and imposter flag. -/
def tallyEntries (players : List Player) (votes : List (String × Nat))
    (imposters : List Nat) : List VoteResult :=
  players.enum.map (fun pi =>
    { player := pi.2, rosterIndex := pi.1,
      votes := voteCountFor votes pi.1,
      isImposter := decide (pi.1 ∈ imposters) })

/-- Stable insertion step for sorting by vote count descending: walk past
entries with strictly more votes, insert before the first entry with at most
as many (so earlier entries stay first on ties). -/
def insertByVotesDesc (x : VoteResult) : List VoteResult → List VoteResult
  | [] => [x]
  | y :: ys => if x.votes < y.votes then y :: insertByVotesDesc x ys
               else x :: y :: ys

/-- Stable sort by vote count descending. `getVoteResults` uses JavaScript
`Array.prototype.sort` with comparator `(a, b) => b.votes - a.votes`, which is
guaranteed stable; a stable sort's output is uniquely determined by the
comparator, so this stable insertion sort computes the same list. -/
def sortByVotesDesc : List VoteResult → List VoteResult
  | [] => []
  | x :: xs => insertByVotesDesc x (sortByVotesDesc xs)

/-- `getVoteResults` of `app/results/[id].tsx`: build the per-player tally
and sort it by vote count descending (stable). -/
def getVoteResults (players : List Player) (votes : List (String × Nat))
    (imposters : List Nat) : List VoteResult :=
  sortByVotesDesc (tallyEntries players votes imposters)

/-- The outcome object of `getGameOutcome`. -/
structure Outcome where
  success : Bool
  message : String
deriving DecidableEq, Repr

/-- `getGameOutcome` of `app/results/[id].tsx`: `none` when there is no
most-voted entry; otherwise success iff the most-voted player is an imposter
and the number of imposter entries with a positive vote count equals the
total number of imposters. -/
def getGameOutcome (players : List Player) (votes : List (String × Nat))
    (imposters : List Nat) : Option Outcome :=
  let results := getVoteResults players votes imposters
  match results with
  | [] => none
  | mostVotedPlayer :: _ =>
    let impostersFound :=
      (results.filter (fun r => r.isImposter && decide (0 < r.votes))).length
    let totalImposters := imposters.length
    if mostVotedPlayer.isImposter then
      some { success := decide (impostersFound = totalImposters),
             message := if impostersFound = totalImposters then
                 "🎉 Gefeliciteerd! Jullie hebben alle imposters gevonden!"
               else
                 "👏 Goed gedaan! Jullie hebben een imposter gevonden, maar er zijn er meer..." }
    else
      some { success := false,
             message := "😈 De imposters hebben gewonnen! Jullie hebben de verkeerde persoon gekozen." }

/-- The order produced by the stable descending sort on a roster-ordered
tally: strictly more votes first, ties in roster order. -/
def tallyOrder (a b : VoteResult) : Prop :=
  b.votes < a.votes ∨ (a.votes = b.votes ∧ a.rosterIndex < b.rosterIndex)

/-- The start preconditions named by the spec. -/
inductive StartCond
  | tooFewPlayers
  | noCategoriesSelected
  | emptyWordPool
deriving DecidableEq, Repr

/-- Formalisation of the spec's wording for the start failure ("listing all
violated ones"): the list of every start condition the given state violates,
in the spec's order. To be compared against the single error `startGame`
actually throws. -/
def specViolatedConditions (g : Game) (ps : List Player) (cats : List Category) :
    List StartCond :=
  (if (activePlayers ps).length < 3 then [StartCond.tooFewPlayers] else []) ++
  (if g.selectedCategories.length = 0 then [StartCond.noCategoriesSelected] else []) ++
  (if (wordPool cats g.selectedCategories).length = 0 then [StartCond.emptyWordPool] else [])

/-- The single condition a `StartError` thrown by `startGame` speaks about. -/
def errorCond : StartError → StartCond
  | .needAtLeastThreePlayers => .tooFewPlayers
  | .selectAtLeastOneCategory => .noCategoriesSelected
  | .noWordsFound => .emptyWordPool

/-! Concrete fixtures used by counterexamples and witnesses. -/

/-- The client's default settings (`GameLobby` initial state). -/
def defaultSettings : GameSettings :=
  { theme := "light", language := "NL", trollMode := false,
    timerEnabled := true, timerDuration := 300,
    numberOfImposters := 1, wordsPerRound := 10 }

/-- A lobby game with one selected category. -/
def gLobbyEx : Game :=
  { status := .lobby, currentPlayerIndex := 0, currentRound := 1,
    totalRounds := 10, selectedCategories := ["Dieren"],
    currentWord := none, hintWord := none, imposters := [],
    settings := defaultSettings, timerStartTime := none, votes := none,
    gameCode := "ABCD" }

/-- A lobby game with no selected category. -/
def gNoCatsEx : Game := { gLobbyEx with selectedCategories := [] }

/-- A game sitting in the discussion phase. -/
def gDiscEx : Game :=
  { gLobbyEx with
    status := .discussion, currentWord := some "Hond",
    hintWord := some "Huisdier", imposters := [1], timerStartTime := some 0 }

/-- A game sitting in the results phase with stored votes. -/
def gResultsEx : Game :=
  { gDiscEx with status := .results, votes := some [("p0", 1), ("p1", 1), ("p2", 0)] }

/-- A playing game at the first player's turn. -/
def gPlayingEx : Game :=
  { gLobbyEx with
    status := .playing, currentWord := some "Hond",
    hintWord := some "Huisdier", imposters := [1], timerStartTime := some 0 }

/-- Two active players. -/
def psTwo : List Player :=
  [{ name := "Ann", color := "red", index := 0, isActive := true },
   { name := "Ben", color := "blue", index := 1, isActive := true }]

/-- Three active players. -/
def psThree : List Player :=
  psTwo ++ [{ name := "Cem", color := "green", index := 2, isActive := true }]

/-- Four active players (the spec's tally example P0..P3). -/
def psFour : List Player :=
  psThree ++ [{ name := "Dia", color := "gold", index := 3, isActive := true }]

/-- A one-category catalog with two words. -/
def catsEx : List Category :=
  [{ name := "Dieren", emoji := "🐾",
     words := [("Hond", "Huisdier"), ("Kat", "Huisdier")], isDefault := true }]

/-! Theorems. -/

/-- C9: the timer is a pure derivation. For every anchor timestamp `t0`
(milliseconds), positive duration `d` (seconds), and caller-supplied now
`t0 + 1000 * s` (i.e. `s` seconds after the anchor), the remaining time is
`max 0 (d - s)`; in particular with duration 300, evaluating 120 s after the
anchor yields 180 and evaluating 301 s after it yields 0. -/
theorem timeRemaining_spec (t0 d s : ℚ) (hd : 0 < d) :
    timeRemaining t0 d (t0 + 1000 * s) = max 0 (d - s) ∧
    timeRemaining t0 300 (t0 + 120 * 1000) = 180 ∧
    timeRemaining t0 300 (t0 + 301 * 1000) = 0 := by
  refine ⟨?_, ?_, ?_⟩ <;> simp only [timeRemaining]
  · have h : (t0 + 1000 * s - t0) / 1000 = s := by ring
    rw [h]
  · norm_num
  · norm_num

/-- Witness for C9 at `t0 = 0`, `d = 300`, `s = 120`. -/
theorem timeRemaining_spec_witness :
    timeRemaining 0 300 (0 + 1000 * 120) = max 0 (300 - 120) ∧
    timeRemaining 0 300 (0 + 120 * 1000) = 180 ∧
    timeRemaining 0 300 (0 + 301 * 1000) = 0 :=
  timeRemaining_spec 0 300 120 (by norm_num)

/-- C6: reset clears round state but preserves the rest. For a game in
results or ended, `resetToLobby` yields a lobby game with
`currentPlayerIndex = 0`, `currentRound = 1`, word, hint, timer anchor and
votes absent, imposters empty, while the players table, `gameCode`,
`settings` (and the selected categories and `totalRounds`) are unchanged. -/
theorem resetToLobby_spec (g : Game) (ps : List Player)
    (h : g.status = GameStatus.results ∨ g.status = GameStatus.ended) :
    (resetToLobbyW (g, ps)).1.status = GameStatus.lobby ∧
    (resetToLobbyW (g, ps)).1.currentPlayerIndex = 0 ∧
    (resetToLobbyW (g, ps)).1.currentRound = 1 ∧
    (resetToLobbyW (g, ps)).1.currentWord = none ∧
    (resetToLobbyW (g, ps)).1.hintWord = none ∧
    (resetToLobbyW (g, ps)).1.imposters = [] ∧
    (resetToLobbyW (g, ps)).1.timerStartTime = none ∧
    (resetToLobbyW (g, ps)).1.votes = none ∧
    (resetToLobbyW (g, ps)).2 = ps ∧
    (resetToLobbyW (g, ps)).1.gameCode = g.gameCode ∧
    (resetToLobbyW (g, ps)).1.settings = g.settings ∧
    (resetToLobbyW (g, ps)).1.selectedCategories = g.selectedCategories ∧
    (resetToLobbyW (g, ps)).1.totalRounds = g.totalRounds := by
  simp [resetToLobbyW, resetToLobby]

/-- Witness for C6 on a concrete results-phase game. -/
theorem resetToLobby_spec_witness :
    (resetToLobbyW (gResultsEx, psThree)).1.status = GameStatus.lobby ∧
    (resetToLobbyW (gResultsEx, psThree)).1.currentPlayerIndex = 0 ∧
    (resetToLobbyW (gResultsEx, psThree)).1.currentRound = 1 ∧
    (resetToLobbyW (gResultsEx, psThree)).1.currentWord = none ∧
    (resetToLobbyW (gResultsEx, psThree)).1.hintWord = none ∧
    (resetToLobbyW (gResultsEx, psThree)).1.imposters = [] ∧
    (resetToLobbyW (gResultsEx, psThree)).1.timerStartTime = none ∧
    (resetToLobbyW (gResultsEx, psThree)).1.votes = none ∧
    (resetToLobbyW (gResultsEx, psThree)).2 = psThree ∧
    (resetToLobbyW (gResultsEx, psThree)).1.gameCode = gResultsEx.gameCode ∧
    (resetToLobbyW (gResultsEx, psThree)).1.settings = gResultsEx.settings ∧
    (resetToLobbyW (gResultsEx, psThree)).1.selectedCategories = gResultsEx.selectedCategories ∧
    (resetToLobbyW (gResultsEx, psThree)).1.totalRounds = gResultsEx.totalRounds :=
  resetToLobby_spec gResultsEx psThree (Or.inl rfl)

/-- C2 counterexample: `submitVotes` does not reject an incomplete vote set.
With active player ids `["p0", "p1", "p2"]` and a votes mapping containing
only `"p0"`, the mutation succeeds: it changes the status from discussion to
results (so the status is not left unchanged) and stores the incomplete
mapping verbatim (so the stored keys are not the active ids). -/
theorem submitVotes_accepts_incomplete_votes :
    "p1" ∈ ["p0", "p1", "p2"] ∧
    (([("p0", 1)] : List (String × Nat)).lookup "p1") = none ∧
    (submitVotes gDiscEx [("p0", 1)]).status = GameStatus.results ∧
    gDiscEx.status = GameStatus.discussion ∧
    (submitVotes gDiscEx [("p0", 1)]).votes = some [("p0", 1)] := by
  refine ⟨by simp, by simp [List.lookup], rfl, rfl, rfl⟩

/-- C2 amended: the server mutation `submitVotes` performs no completeness
check — it unconditionally sets the status to results and stores the votes
mapping verbatim (leaving the other fields alone). The all-or-nothing
rejection of incomplete vote sets happens only client-side:
`handleSubmitVotes` does not invoke the mutation (so the game is unchanged)
when some active player's id is missing from the assembled votes, and invokes
it verbatim when every active player has voted. -/
theorem submitVotes_amended (g : Game) (activeIds : List String)
    (sv : List (String × Nat)) :
    ((∃ pid ∈ activeIds, sv.lookup pid = none) →
      handleSubmitVotes g activeIds sv = none) ∧
    ((∀ pid ∈ activeIds, (sv.lookup pid).isSome) →
      handleSubmitVotes g activeIds sv = some (submitVotes g sv)) ∧
    (submitVotes g sv).status = GameStatus.results ∧
    (submitVotes g sv).votes = some sv ∧
    (submitVotes g sv).currentPlayerIndex = g.currentPlayerIndex ∧
    (submitVotes g sv).imposters = g.imposters ∧
    (submitVotes g sv).gameCode = g.gameCode := by
  refine ⟨?_, ?_, rfl, rfl, rfl, rfl, rfl⟩
  · rintro ⟨pid, hmem, hnone⟩
    have hall : ¬ (activeIds.all (fun p => (sv.lookup p).isSome) = true) := by
      simp only [List.all_eq_true]
      intro hforall
      have := hforall pid hmem
      rw [hnone] at this
      simp at this
    simp [handleSubmitVotes, hall]
  · intro hforall
    have hall : activeIds.all (fun p => (sv.lookup p).isSome) = true := by
      simp only [List.all_eq_true]
      intro p hp
      exact hforall p hp
    simp [handleSubmitVotes, hall]

/-- Witness for C2 amended: on the concrete incomplete submission the client
refuses, and on a complete one it submits. -/
theorem submitVotes_amended_witness :
    handleSubmitVotes gDiscEx ["p0", "p1", "p2"] [("p0", 1)] = none :=
  (submitVotes_amended gDiscEx ["p0", "p1", "p2"] [("p0", 1)]).1
    ⟨"p1", by simp, by simp [List.lookup]⟩

/-- C8 counterexample: `nextPlayer` has no status guard. On a lobby game
(status not playing) with 3 active players it does not fail and does not
leave the state unchanged: it advances `currentPlayerIndex` from 0 to 1. -/
theorem nextPlayer_ignores_status_guard :
    gLobbyEx.status ≠ GameStatus.playing ∧
    gLobbyEx.currentPlayerIndex = 0 ∧
    (nextPlayer gLobbyEx 3 0).currentPlayerIndex = 1 ∧
    (nextPlayer gLobbyEx 3 0).status = GameStatus.lobby := by
  refine ⟨by decide, rfl, rfl, rfl⟩

/-- C8 amended: `nextPlayer` performs no status check. For every existing
game whose status is not playing it still advances: if
`currentPlayerIndex + 1 < activeCount` it increments the index keeping the
status, otherwise it moves the game to discussion (the only failure the
source knows is a missing game id). -/
theorem nextPlayer_unguarded (g : Game) (n : Nat) (now : ℚ)
    (h : g.status ≠ GameStatus.playing) :
    (g.currentPlayerIndex + 1 < n →
      (nextPlayer g n now).currentPlayerIndex = g.currentPlayerIndex + 1 ∧
      (nextPlayer g n now).status = g.status) ∧
    (n ≤ g.currentPlayerIndex + 1 →
      (nextPlayer g n now).status = GameStatus.discussion ∧
      (nextPlayer g n now).currentPlayerIndex = g.currentPlayerIndex) := by
  constructor
  · intro hlt
    have hn : ¬ (n ≤ g.currentPlayerIndex + 1) := by omega
    simp [nextPlayer, hn]
  · intro hle
    simp [nextPlayer, hle]

/-- Witness for C8 amended on the concrete lobby game. -/
theorem nextPlayer_unguarded_witness :
    (nextPlayer gLobbyEx 3 0).currentPlayerIndex = gLobbyEx.currentPlayerIndex + 1 ∧
    (nextPlayer gLobbyEx 3 0).status = gLobbyEx.status :=
  (nextPlayer_unguarded gLobbyEx 3 0 (by decide)).1 (by decide)

/-- As long as fewer calls than active players have happened, iterating
`nextPlayer` only stores the incremented index. -/
theorem nextPlayerIter_eq_of_lt (g : Game) (N : Nat) (nows : Nat → ℚ)
    (h0 : g.currentPlayerIndex = 0) :
    ∀ k, k < N → nextPlayerIter g N nows k = { g with currentPlayerIndex := k } := by
  intro k
  induction k with
  | zero =>
    intro _
    show g = { g with currentPlayerIndex := 0 }
    rw [← h0]
  | succ k ih =>
    intro hk
    have hk' : k < N := Nat.lt_of_succ_lt hk
    have hrec := ih hk'
    show nextPlayer (nextPlayerIter g N nows k) N (nows k) = _
    rw [hrec]
    have hn : ¬ (N ≤ k + 1) := by omega
    simp [nextPlayer, hn]

/-- C4: turn monotonicity. For a playing game with `N ≥ 1` active players and
`currentPlayerIndex = 0`, the first `N - 1` calls of `nextPlayer` visit
indices `0, 1, …, N-1` exactly once each in ascending order while the status
stays playing, and the `N`-th call switches the status to discussion, keeps
the index at `N - 1`, and re-anchors the timer to the current wall clock when
`timerEnabled` is set (clearing it otherwise). -/
theorem nextPlayer_turn_monotonicity (g : Game) (N : Nat) (nows : Nat → ℚ)
    (hs : g.status = GameStatus.playing) (h0 : g.currentPlayerIndex = 0)
    (hN : 1 ≤ N) :
    (∀ k, k < N → (nextPlayerIter g N nows k).currentPlayerIndex = k ∧
      (nextPlayerIter g N nows k).status = GameStatus.playing) ∧
    (nextPlayerIter g N nows N).status = GameStatus.discussion ∧
    (nextPlayerIter g N nows N).currentPlayerIndex = N - 1 ∧
    (nextPlayerIter g N nows N).timerStartTime =
      (if g.settings.timerEnabled then some (nows (N - 1)) else none) := by
  obtain ⟨M, rfl⟩ : ∃ M, N = M + 1 := ⟨N - 1, by omega⟩
  refine ⟨?_, ?_⟩
  · intro k hk
    rw [nextPlayerIter_eq_of_lt g (M + 1) nows h0 k hk]
    exact ⟨rfl, hs⟩
  · have hM : M < M + 1 := Nat.lt_succ_self M
    have hrec := nextPlayerIter_eq_of_lt g (M + 1) nows h0 M hM
    have hstep : nextPlayerIter g (M + 1) nows (M + 1) =
        nextPlayer { g with currentPlayerIndex := M } (M + 1) (nows M) := by
      show nextPlayer (nextPlayerIter g (M + 1) nows M) (M + 1) (nows M) = _
      rw [hrec]
    rw [hstep]
    have hge : M + 1 ≤ M + 1 := le_refl _
    simp [nextPlayer, hge]

/-- Witness for C4 on a concrete playing game with 3 active players. -/
theorem nextPlayer_turn_monotonicity_witness :
    (∀ k, k < 3 → (nextPlayerIter gPlayingEx 3 (fun _ => 7) k).currentPlayerIndex = k ∧
      (nextPlayerIter gPlayingEx 3 (fun _ => 7) k).status = GameStatus.playing) ∧
    (nextPlayerIter gPlayingEx 3 (fun _ => 7) 3).status = GameStatus.discussion ∧
    (nextPlayerIter gPlayingEx 3 (fun _ => 7) 3).currentPlayerIndex = 3 - 1 ∧
    (nextPlayerIter gPlayingEx 3 (fun _ => 7) 3).timerStartTime =
      (if gPlayingEx.settings.timerEnabled then some ((fun _ => (7 : ℚ)) (3 - 1)) else none) :=
  nextPlayer_turn_monotonicity gPlayingEx 3 (fun _ => 7) rfl rfl (by omega)

/-- When the selection loop finishes from an accumulator not already past the
target, the chosen set has exactly the target size. -/
theorem pickImposters_length : ∀ (draws acc : List Nat) (target : Nat)
    (out : List Nat), pickImposters target draws acc = some out →
    acc.length ≤ target → out.length = target := by
  intro draws
  induction draws with
  | nil =>
    intro acc target out hout hle
    by_cases h : target ≤ acc.length
    · simp only [pickImposters, if_pos h, Option.some.injEq] at hout
      subst hout
      omega
    · simp [pickImposters, if_neg h] at hout
  | cons d rest ih =>
    intro acc target out hout hle
    by_cases h : target ≤ acc.length
    · simp only [pickImposters, if_pos h, Option.some.injEq] at hout
      subst hout
      omega
    · by_cases hmem : d ∈ acc
      · simp only [pickImposters, if_neg h, if_pos hmem] at hout
        exact ih acc target out hout hle
      · simp only [pickImposters, if_neg h, if_neg hmem] at hout
        have : (acc ++ [d]).length ≤ target := by
          simp only [List.length_append, List.length_singleton]
          omega
        exact ih (acc ++ [d]) target out hout this

/-- The selection loop only ever adds indices it has not chosen yet, so the
chosen set stays duplicate-free. -/
theorem pickImposters_nodup : ∀ (draws acc : List Nat) (target : Nat)
    (out : List Nat), pickImposters target draws acc = some out →
    acc.Nodup → out.Nodup := by
  intro draws
  induction draws with
  | nil =>
    intro acc target out hout hnd
    by_cases h : target ≤ acc.length
    · simp only [pickImposters, if_pos h, Option.some.injEq] at hout
      subst hout
      exact hnd
    · simp [pickImposters, if_neg h] at hout
  | cons d rest ih =>
    intro acc target out hout hnd
    by_cases h : target ≤ acc.length
    · simp only [pickImposters, if_pos h, Option.some.injEq] at hout
      subst hout
      exact hnd
    · by_cases hmem : d ∈ acc
      · simp only [pickImposters, if_neg h, if_pos hmem] at hout
        exact ih acc target out hout hnd
      · simp only [pickImposters, if_neg h, if_neg hmem] at hout
        refine ih (acc ++ [d]) target out hout ?_
        simp [List.nodup_append, hnd, hmem]

/-- Every chosen index comes from the accumulator or the random tape. -/
theorem pickImposters_mem : ∀ (draws acc : List Nat) (target : Nat)
    (out : List Nat), pickImposters target draws acc = some out →
    ∀ x ∈ out, x ∈ acc ∨ x ∈ draws := by
  intro draws
  induction draws with
  | nil =>
    intro acc target out hout x hx
    by_cases h : target ≤ acc.length
    · simp only [pickImposters, if_pos h, Option.some.injEq] at hout
      subst hout
      exact Or.inl hx
    · simp [pickImposters, if_neg h] at hout
  | cons d rest ih =>
    intro acc target out hout x hx
    by_cases h : target ≤ acc.length
    · simp only [pickImposters, if_pos h, Option.some.injEq] at hout
      subst hout
      exact Or.inl hx
    · by_cases hmem : d ∈ acc
      · simp only [pickImposters, if_neg h, if_pos hmem] at hout
        rcases ih acc target out hout x hx with hl | hr
        · exact Or.inl hl
        · exact Or.inr (List.mem_cons_of_mem d hr)
      · simp only [pickImposters, if_neg h, if_neg hmem] at hout
        rcases ih (acc ++ [d]) target out hout x hx with hl | hr
        · rcases List.mem_append.1 hl with hl' | hl'
          · exact Or.inl hl'
          · simp only [List.mem_singleton] at hl'
            rw [hl']
            exact Or.inr (List.mem_cons_self d rest)
        · exact Or.inr (List.mem_cons_of_mem d hr)

/-- If the random tape holds every index below `n`, the accumulator is
duplicate-free with in-range entries, and the target is at most `n`, the
selection loop completes before exhausting the tape. -/
theorem pickImposters_total : ∀ (draws acc : List Nat) (n target : Nat),
    target ≤ n → acc.Nodup → (∀ a ∈ acc, a < n) → (∀ x ∈ draws, x < n) →
    (∀ j, j < n → j ∈ draws ∨ j ∈ acc) →
    (pickImposters target draws acc).isSome := by
  intro draws
  induction draws with
  | nil =>
    intro acc n target htn hnd hbound _ hcover
    have hsub : ∀ j, j < n → j ∈ acc := by
      intro j hj
      rcases hcover j hj with hl | hr
      · exact absurd hl (List.not_mem_nil j)
      · exact hr
    have hrange : (List.range n) ⊆ acc := by
      intro j hj
      exact hsub j (List.mem_range.1 hj)
    have hlen : n ≤ acc.length := by
      have h1 := List.Subperm.length_le (List.subperm_of_subset (List.nodup_range n) hrange)
      simpa using h1
    have h : target ≤ acc.length := le_trans htn hlen
    simp [pickImposters, if_pos h]
  | cons d rest ih =>
    intro acc n target htn hnd hbound hdraws hcover
    by_cases h : target ≤ acc.length
    · simp [pickImposters, if_pos h]
    · by_cases hmem : d ∈ acc
      · simp only [pickImposters, if_neg h, if_pos hmem]
        refine ih acc n target htn hnd hbound
          (fun x hx => hdraws x (List.mem_cons_of_mem d hx)) ?_
        intro j hj
        rcases hcover j hj with hl | hr
        · rcases List.mem_cons.1 hl with rfl | hl'
          · exact Or.inr hmem
          · exact Or.inl hl'
        · exact Or.inr hr
      · simp only [pickImposters, if_neg h, if_neg hmem]
        refine ih (acc ++ [d]) n target htn ?_ ?_
          (fun x hx => hdraws x (List.mem_cons_of_mem d hx)) ?_
        · simp [List.nodup_append, hnd, hmem]
        · intro a ha
          rcases List.mem_append.1 ha with ha' | ha'
          · exact hbound a ha'
          · simp only [List.mem_singleton] at ha'
            rw [ha']
            exact hdraws d (List.mem_cons_self d rest)
        · intro j hj
          rcases hcover j hj with hl | hr
          · rcases List.mem_cons.1 hl with rfl | hl'
            · exact Or.inr (by simp)
            · exact Or.inl hl'
          · exact Or.inr (List.mem_append_left [d] hr)

/-- C3: imposter count invariant. For a game with at least 3 active players
and a configured `numberOfImposters ≥ 1`, after a successful start the set of
imposter indices has size exactly `min numberOfImposters (activeCount - 1)`,
its elements are pairwise distinct, and each lies in `[0, activeCount)`
(the random tape only holds values below the active count, as
`Math.floor(Math.random() * players.length)` does). -/
theorem startGame_imposter_invariant (g : Game) (ps : List Player)
    (cats : List Category) (wordPick : Nat) (draws : List Nat) (now : ℚ)
    (g' : Game)
    (hact : 3 ≤ (activePlayers ps).length)
    (himp : 1 ≤ g.settings.numberOfImposters)
    (hdraws : ∀ d ∈ draws, d < (activePlayers ps).length)
    (hok : startGame g ps cats wordPick draws now = some (Except.ok g')) :
    g'.imposters.length =
      min g.settings.numberOfImposters ((activePlayers ps).length - 1) ∧
    g'.imposters.Nodup ∧
    (∀ i ∈ g'.imposters, i < (activePlayers ps).length) := by
  have h3 : ¬ ((activePlayers ps).length < 3) := by omega
  simp only [startGame, if_neg h3] at hok
  by_cases hcats : g.selectedCategories.length = 0
  · rw [if_pos hcats] at hok
    exact absurd hok (by simp)
  · rw [if_neg hcats] at hok
    by_cases hwords : (wordPool cats g.selectedCategories).length = 0
    · rw [if_pos hwords] at hok
      exact absurd hok (by simp)
    · rw [if_neg hwords] at hok
      rcases hpick : pickImposters
          (min g.settings.numberOfImposters ((activePlayers ps).length - 1))
          draws [] with _ | out
      · rw [hpick] at hok
        simp at hok
      · rw [hpick] at hok
        simp only [Option.some.injEq, Except.ok.injEq] at hok
        subst hok
        refine ⟨?_, ?_, ?_⟩
        · exact pickImposters_length draws [] _ out hpick (by simp)
        · exact pickImposters_nodup draws [] _ out hpick List.nodup_nil
        · intro i hi
          rcases pickImposters_mem draws [] _ out hpick i hi with hl | hr
          · exact absurd hl (List.not_mem_nil i)
          · exact hdraws i hr

/-- Witness for C3: a concrete successful start with 3 players and tape
`[1]`. -/
theorem startGame_imposter_invariant_witness :
    gPlayingEx.imposters.length =
      min gLobbyEx.settings.numberOfImposters ((activePlayers psThree).length - 1) ∧
    gPlayingEx.imposters.Nodup ∧
    (∀ i ∈ gPlayingEx.imposters, i < (activePlayers psThree).length) :=
  startGame_imposter_invariant gLobbyEx psThree catsEx 0 [1] 0 gPlayingEx
    (by decide) (by decide) (by decide) rfl

/-- C10: termination of the imposter selection. The start operation clamps
the target size to `min numberOfImposters (activeCount - 1) < activeCount`,
so for any random tape that is in range and eventually mentions every index
below the active count (which a uniform sampler does with probability one),
the rejection-sampling loop completes. -/
theorem startGame_selection_terminates (g : Game) (n : Nat) (draws : List Nat)
    (hn : 3 ≤ n) (hdraws : ∀ d ∈ draws, d < n)
    (hcover : ∀ j, j < n → j ∈ draws) :
    (pickImposters (min g.settings.numberOfImposters (n - 1)) draws []).isSome := by
  refine pickImposters_total draws [] n _ ?_ List.nodup_nil (by simp) hdraws ?_
  · have h1 : min g.settings.numberOfImposters (n - 1) ≤ n - 1 := min_le_right _ _
    omega
  · intro j hj
    exact Or.inl (hcover j hj)

/-- Witness for C10: the tape `[0, 1, 2]` covers all indices below 3. -/
theorem startGame_selection_terminates_witness :
    (pickImposters (min gLobbyEx.settings.numberOfImposters (3 - 1)) [0, 1, 2] []).isSome :=
  startGame_selection_terminates gLobbyEx 3 [0, 1, 2] (by omega) (by decide)
    (by decide)

/-- C7 counterexample: the start error does not list all violated
conditions. With 2 active players, no selected category and an empty catalog,
all three preconditions are violated, yet `startGame` throws the single
error "Need at least 3 players to start", which speaks about just one of
them. -/
theorem startGame_error_names_single_condition :
    startGame gNoCatsEx psTwo [] 0 [] 0 =
      some (Except.error StartError.needAtLeastThreePlayers) ∧
    specViolatedConditions gNoCatsEx psTwo [] =
      [StartCond.tooFewPlayers, StartCond.noCategoriesSelected,
       StartCond.emptyWordPool] ∧
    [errorCond StartError.needAtLeastThreePlayers] ≠
      specViolatedConditions gNoCatsEx psTwo [] := by
  refine ⟨rfl, rfl, by decide⟩

/-- C7 amended: start preconditions are checked in a fixed order and the
thrown error names the first violated condition (fewer than 3 active
players, then no selected category, then empty word pool); a start that
throws commits nothing, so the game state is unchanged and the status stays
what it was (in particular lobby). -/
theorem startGame_preconditions (g : Game) (ps : List Player)
    (cats : List Category) (wordPick : Nat) (draws : List Nat) (now : ℚ) :
    ((activePlayers ps).length < 3 →
      startGame g ps cats wordPick draws now =
        some (Except.error StartError.needAtLeastThreePlayers)) ∧
    (3 ≤ (activePlayers ps).length → g.selectedCategories = [] →
      startGame g ps cats wordPick draws now =
        some (Except.error StartError.selectAtLeastOneCategory)) ∧
    (3 ≤ (activePlayers ps).length → g.selectedCategories ≠ [] →
      wordPool cats g.selectedCategories = [] →
      startGame g ps cats wordPick draws now =
        some (Except.error StartError.noWordsFound)) ∧
    (∀ e, startGame g ps cats wordPick draws now = some (Except.error e) →
      applyStart g (startGame g ps cats wordPick draws now) = g ∧
      (specViolatedConditions g ps cats).head? = some (errorCond e)) := by
  have hA : (activePlayers ps).length < 3 →
      startGame g ps cats wordPick draws now =
        some (Except.error StartError.needAtLeastThreePlayers) := by
    intro h
    simp [startGame, if_pos h]
  have hB : 3 ≤ (activePlayers ps).length → g.selectedCategories = [] →
      startGame g ps cats wordPick draws now =
        some (Except.error StartError.selectAtLeastOneCategory) := by
    intro h3 hcats
    have h : ¬ ((activePlayers ps).length < 3) := by omega
    simp [startGame, if_neg h, hcats]
  have hC : 3 ≤ (activePlayers ps).length → g.selectedCategories ≠ [] →
      wordPool cats g.selectedCategories = [] →
      startGame g ps cats wordPick draws now =
        some (Except.error StartError.noWordsFound) := by
    intro h3 hcats hwords
    have h : ¬ ((activePlayers ps).length < 3) := by omega
    simp [startGame, if_neg h, hcats, hwords]
  refine ⟨hA, hB, hC, ?_⟩
  intro e he
  by_cases h1 : (activePlayers ps).length < 3
  · rw [hA h1] at he
    simp only [Option.some.injEq, Except.error.injEq] at he
    subst he
    refine ⟨?_, ?_⟩
    · rw [hA h1]
      rfl
    · simp [specViolatedConditions, if_pos h1, errorCond]
  · by_cases h2 : g.selectedCategories = []
    · rw [hB (by omega) h2] at he
      simp only [Option.some.injEq, Except.error.injEq] at he
      subst he
      refine ⟨?_, ?_⟩
      · rw [hB (by omega) h2]
        rfl
      · simp [specViolatedConditions, h1, h2, errorCond]
    · by_cases h3 : wordPool cats g.selectedCategories = []
      · rw [hC (by omega) h2 h3] at he
        simp only [Option.some.injEq, Except.error.injEq] at he
        subst he
        refine ⟨?_, ?_⟩
        · rw [hC (by omega) h2 h3]
          rfl
        · simp [specViolatedConditions, h1, h2, h3, errorCond]
      · exfalso
        have h2' : ¬ (g.selectedCategories.length = 0) := by
          simpa [List.length_eq_zero] using h2
        have h3' : ¬ ((wordPool cats g.selectedCategories).length = 0) := by
          simpa [List.length_eq_zero] using h3
        simp only [startGame, if_neg h1, if_neg h2', if_neg h3'] at he
        rcases hpick : pickImposters
            (min g.settings.numberOfImposters ((activePlayers ps).length - 1))
            draws [] with _ | out
        · rw [hpick] at he
          simp at he
        · rw [hpick] at he
          simp at he

/-- Witness for C7 amended: a start with 2 active players throws the
player-count error and leaves the game unchanged. -/
theorem startGame_preconditions_witness :
    startGame gLobbyEx psTwo catsEx 0 [] 0 =
      some (Except.error StartError.needAtLeastThreePlayers) ∧
    applyStart gLobbyEx (startGame gLobbyEx psTwo catsEx 0 [] 0) = gLobbyEx := by
  have h := startGame_preconditions gLobbyEx psTwo catsEx 0 [] 0
  have h1 := h.1 (by decide)
  exact ⟨h1, (h.2.2.2 StartError.needAtLeastThreePlayers h1).1⟩

/-- Inserting an entry keeps exactly the elements: the result is a
permutation of consing it. -/
theorem insertByVotesDesc_perm (x : VoteResult) :
    ∀ l : List VoteResult, (insertByVotesDesc x l).Perm (x :: l) := by
  intro l
  induction l with
  | nil => simp [insertByVotesDesc]
  | cons y ys ih =>
    by_cases h : x.votes < y.votes
    · simp only [insertByVotesDesc, if_pos h]
      exact (ih.cons y).trans (List.Perm.swap x y ys)
    · simp only [insertByVotesDesc, if_neg h]
      exact List.Perm.refl _

/-- The stable sort permutes its input. -/
theorem sortByVotesDesc_perm :
    ∀ l : List VoteResult, (sortByVotesDesc l).Perm l := by
  intro l
  induction l with
  | nil => simp [sortByVotesDesc]
  | cons x xs ih =>
    show (insertByVotesDesc x (sortByVotesDesc xs)).Perm (x :: xs)
    exact (insertByVotesDesc_perm x (sortByVotesDesc xs)).trans (ih.cons x)

/-- Inserting an element whose roster index is below every element of an
already tally-ordered list keeps the list tally-ordered. -/
theorem insertByVotesDesc_pairwise (x : VoteResult) :
    ∀ l : List VoteResult, l.Pairwise tallyOrder →
    (∀ y ∈ l, x.rosterIndex < y.rosterIndex) →
    (insertByVotesDesc x l).Pairwise tallyOrder := by
  intro l
  induction l with
  | nil =>
    intro _ _
    simp [insertByVotesDesc]
  | cons y ys ih =>
    intro hp hidx
    rcases List.pairwise_cons.1 hp with ⟨hy, hys⟩
    by_cases h : x.votes < y.votes
    · simp only [insertByVotesDesc, if_pos h]
      refine List.pairwise_cons.2 ⟨?_, ?_⟩
      · intro z hz
        have hz' : z = x ∨ z ∈ ys := by
          have := (insertByVotesDesc_perm x ys).mem_iff.1 hz
          simpa using this
        rcases hz' with rfl | hz'
        · exact Or.inl h
        · exact hy z hz'
      · exact ih hys (fun y' hy' => hidx y' (List.mem_cons_of_mem y hy'))
    · simp only [insertByVotesDesc, if_neg h]
      refine List.pairwise_cons.2 ⟨?_, List.pairwise_cons.2 ⟨hy, hys⟩⟩
      intro z hz
      rcases List.mem_cons.1 hz with rfl | hz'
      · rcases Nat.lt_or_ge z.votes x.votes with hlt | hge
        · exact Or.inl hlt
        · have heq : x.votes = z.votes := by omega
          exact Or.inr ⟨heq, hidx z (List.mem_cons_self z ys)⟩
      · have hyz : z.votes < y.votes ∨
            (y.votes = z.votes ∧ y.rosterIndex < z.rosterIndex) := hy z hz'
        have hzy : z.votes ≤ y.votes := by
          rcases hyz with h1 | ⟨h1, _⟩
          · omega
          · omega
        rcases Nat.lt_or_ge z.votes x.votes with hlt | hge
        · exact Or.inl hlt
        · have heq : x.votes = z.votes := by omega
          exact Or.inr ⟨heq, hidx z (List.mem_cons_of_mem y hz')⟩

/-- Stable descending sort of a list with strictly increasing roster indices
is tally-ordered: strictly more votes first, ties in roster order. -/
theorem sortByVotesDesc_pairwise :
    ∀ l : List VoteResult,
    l.Pairwise (fun a b => a.rosterIndex < b.rosterIndex) →
    (sortByVotesDesc l).Pairwise tallyOrder := by
  intro l
  induction l with
  | nil =>
    intro _
    simp [sortByVotesDesc]
  | cons x xs ih =>
    intro hp
    rcases List.pairwise_cons.1 hp with ⟨hx, hxs⟩
    refine insertByVotesDesc_pairwise x (sortByVotesDesc xs) (ih hxs) ?_
    intro y hy
    exact hx y ((sortByVotesDesc_perm xs).mem_iff.1 hy)

/-- The unsorted tally lists the roster indices in strictly increasing
order. -/
theorem tallyEntries_pairwise_idx (players : List Player)
    (votes : List (String × Nat)) (imposters : List Nat) :
    (tallyEntries players votes imposters).Pairwise
      (fun a b => a.rosterIndex < b.rosterIndex) := by
  have h1 : (players.enum.map Prod.fst).Pairwise (· < ·) := by
    rw [List.enum_map_fst]
    exact List.pairwise_lt_range _
  have h2 : players.enum.Pairwise (fun a b => a.1 < b.1) :=
    (List.pairwise_map).1 h1
  exact (List.pairwise_map).2 h2

/-- Every entry of the unsorted tally pairs the player at its roster index
with that index's vote count and imposter flag. -/
theorem tallyEntries_mem (players : List Player) (votes : List (String × Nat))
    (imposters : List Nat) (r : VoteResult)
    (hr : r ∈ tallyEntries players votes imposters) :
    r.votes = voteCountFor votes r.rosterIndex ∧
    (r.isImposter = true ↔ r.rosterIndex ∈ imposters) ∧
    players[r.rosterIndex]? = some r.player := by
  unfold tallyEntries at hr
  rcases List.mem_map.1 hr with ⟨⟨i, p⟩, hpi, rfl⟩
  exact ⟨rfl, by simp, List.mk_mem_enum_iff_getElem?.mp hpi⟩

/-- A filter keeps the whole list exactly when every element satisfies the
predicate (stated via lengths). -/
theorem filter_length_eq_iff {α : Type} (p : α → Bool) (l : List α) :
    (l.filter p).length = l.length ↔ ∀ a ∈ l, p a = true := by
  constructor
  · intro h
    rw [← List.filter_eq_self]
    exact List.Sublist.eq_of_length (List.filter_sublist l) h
  · intro h
    rw [List.filter_eq_self.2 h]

/-- The imposter-with-votes count over the tally equals the count of
imposters that received at least one vote. -/
theorem impostersFound_eq (players : List Player) (votes : List (String × Nat))
    (imposters : List Nat) (hnd : imposters.Nodup)
    (hrange : ∀ i ∈ imposters, i < players.length) :
    ((tallyEntries players votes imposters).filter
        (fun r => r.isImposter && decide (0 < r.votes))).length =
      (imposters.filter (fun i => decide (0 < voteCountFor votes i))).length := by
  have h1 : ((tallyEntries players votes imposters).filter
        (fun r => r.isImposter && decide (0 < r.votes))).length =
      (players.enum.filter (fun pi =>
        decide (pi.1 ∈ imposters) && decide (0 < voteCountFor votes pi.1))).length := by
    unfold tallyEntries
    rw [List.filter_map, List.length_map, Function.comp_def]
  have h2 : (players.enum.filter (fun pi =>
        decide (pi.1 ∈ imposters) && decide (0 < voteCountFor votes pi.1))).length =
      ((List.range players.length).filter (fun i =>
        decide (i ∈ imposters) && decide (0 < voteCountFor votes i))).length := by
    have h2a : (players.enum.filter (fun pi =>
          decide (pi.1 ∈ imposters) && decide (0 < voteCountFor votes pi.1))).length =
        ((players.enum.map Prod.fst).filter (fun i =>
          decide (i ∈ imposters) && decide (0 < voteCountFor votes i))).length := by
      rw [List.filter_map, List.length_map, Function.comp_def]
    rw [h2a, List.enum_map_fst]
  have h3 : ((List.range players.length).filter (fun i =>
        decide (i ∈ imposters) && decide (0 < voteCountFor votes i))).Perm
      (imposters.filter (fun i => decide (0 < voteCountFor votes i))) := by
    refine (List.perm_ext_iff_of_nodup ?_ ?_).2 ?_
    · exact (List.nodup_range _).filter _
    · exact hnd.filter _
    · intro i
      simp only [List.mem_filter, List.mem_range, Bool.and_eq_true,
        decide_eq_true_eq]
      constructor
      · rintro ⟨_, hi, hc⟩
        exact ⟨hi, hc⟩
      · rintro ⟨hi, hc⟩
        exact ⟨hrange i hi, hi, hc⟩
  rw [h1, h2, h3.length_eq]

/-- Inserting into a list of zero-vote entries, with a zero-vote element,
keeps it in place: no comparison fires. -/
theorem insertByVotesDesc_zero (x : VoteResult) (l : List VoteResult)
    (hx : x.votes = 0) (hl : ∀ y ∈ l, y.votes = 0) :
    insertByVotesDesc x l = x :: l := by
  cases l with
  | nil => rfl
  | cons y ys =>
    have hy : y.votes = 0 := hl y (List.mem_cons_self y ys)
    have h : ¬ (x.votes < y.votes) := by omega
    simp [insertByVotesDesc, if_neg h]

/-- Sorting a list whose entries all have zero votes leaves it unchanged. -/
theorem sortByVotesDesc_zero : ∀ l : List VoteResult,
    (∀ y ∈ l, y.votes = 0) → sortByVotesDesc l = l := by
  intro l
  induction l with
  | nil =>
    intro _
    rfl
  | cons x xs ih =>
    intro h
    have hxs : ∀ y ∈ xs, y.votes = 0 := fun y hy => h y (List.mem_cons_of_mem x hy)
    show insertByVotesDesc x (sortByVotesDesc xs) = x :: xs
    rw [ih hxs]
    exact insertByVotesDesc_zero x xs (h x (List.mem_cons_self x xs)) hxs

/-- C5: vote tally and outcome. For a game in results with stored votes
(and the start-established invariant that the imposter indices are distinct
and in range), the results array pairs each active player with the number of
vote values equal to that player's roster index (it is a permutation of the
roster-ordered tally, and every entry carries its roster index's vote count,
imposter flag, and player); it is sorted by vote count descending with ties
in roster-index ascending order; the outcome's success is true exactly when
the top entry is an imposter and every imposter received at least one vote;
and when all counts are zero the top accused is roster index 0. -/
theorem getVoteResults_spec (players : List Player) (votes : List (String × Nat))
    (imposters : List Nat) (hnd : imposters.Nodup)
    (hrange : ∀ i ∈ imposters, i < players.length) :
    (getVoteResults players votes imposters).Perm
      (tallyEntries players votes imposters) ∧
    (∀ r ∈ getVoteResults players votes imposters,
      r.votes = voteCountFor votes r.rosterIndex ∧
      (r.isImposter = true ↔ r.rosterIndex ∈ imposters) ∧
      players[r.rosterIndex]? = some r.player) ∧
    (getVoteResults players votes imposters).Pairwise tallyOrder ∧
    (∀ o, getGameOutcome players votes imposters = some o →
      (o.success = true ↔
        ((getVoteResults players votes imposters).head?.map (·.isImposter) =
            some true ∧
         ∀ i ∈ imposters, 0 < voteCountFor votes i))) ∧
    (players ≠ [] → (∀ i, voteCountFor votes i = 0) →
      (getVoteResults players votes imposters).head?.map (·.rosterIndex) =
        some 0) := by
  have hperm : (getVoteResults players votes imposters).Perm
      (tallyEntries players votes imposters) := sortByVotesDesc_perm _
  refine ⟨hperm, ?_, ?_, ?_, ?_⟩
  · intro r hr
    exact tallyEntries_mem players votes imposters r (hperm.mem_iff.1 hr)
  · exact sortByVotesDesc_pairwise _ (tallyEntries_pairwise_idx players votes imposters)
  · intro o ho
    simp only [getGameOutcome] at ho
    rcases hres : getVoteResults players votes imposters with _ | ⟨top, rest⟩
    · rw [hres] at ho
      simp at ho
    · simp only [hres] at ho
      have hperm' : (top :: rest).Perm (tallyEntries players votes imposters) := by
        rw [← hres]
        exact hperm
      have hlen : ((top :: rest).filter
            (fun r => r.isImposter && decide (0 < r.votes))).length =
          ((tallyEntries players votes imposters).filter
            (fun r => r.isImposter && decide (0 < r.votes))).length :=
        (hperm'.filter _).length_eq
      have hiff : (((top :: rest).filter
            (fun r => r.isImposter && decide (0 < r.votes))).length =
          imposters.length) ↔
          (∀ i ∈ imposters, 0 < voteCountFor votes i) := by
        rw [hlen, impostersFound_eq players votes imposters hnd hrange,
          filter_length_eq_iff]
        simp
      cases htop : top.isImposter with
      | false =>
        simp only [htop, Bool.false_eq_true, if_false, Option.some.injEq] at ho
        subst ho
        simp [hres, htop]
      | true =>
        simp only [htop, if_true, Option.some.injEq] at ho
        subst ho
        constructor
        · intro hsucc
          refine ⟨by simp [hres, htop], ?_⟩
          have hlen2 : ((top :: rest).filter
              (fun r => r.isImposter && decide (0 < r.votes))).length =
              imposters.length := by
            simpa using hsucc
          exact hiff.1 hlen2
        · rintro ⟨_, hall⟩
          simpa using hiff.2 hall
  · intro hne hzero
    have hall : ∀ y ∈ tallyEntries players votes imposters, y.votes = 0 := by
      intro y hy
      have hm := tallyEntries_mem players votes imposters y hy
      rw [hm.1, hzero]
    have hsort : getVoteResults players votes imposters =
        tallyEntries players votes imposters := sortByVotesDesc_zero _ hall
    rw [hsort]
    cases players with
    | nil => exact absurd rfl hne
    | cons p rest =>
      simp [tallyEntries, List.enum_cons]

/-- The spec's worked tally example: P0→2, P1→2, P2→0, P3→2. -/
def votes4 : List (String × Nat) := [("p0", 2), ("p1", 2), ("p2", 0), ("p3", 2)]

/-- Witness for C5 at the spec's concrete example (players P0..P3,
imposters = {2}). -/
theorem getVoteResults_spec_witness :
    (getVoteResults psFour votes4 [2]).Perm (tallyEntries psFour votes4 [2]) ∧
    (∀ r ∈ getVoteResults psFour votes4 [2],
      r.votes = voteCountFor votes4 r.rosterIndex ∧
      (r.isImposter = true ↔ r.rosterIndex ∈ [2]) ∧
      psFour[r.rosterIndex]? = some r.player) ∧
    (getVoteResults psFour votes4 [2]).Pairwise tallyOrder ∧
    (∀ o, getGameOutcome psFour votes4 [2] = some o →
      (o.success = true ↔
        ((getVoteResults psFour votes4 [2]).head?.map (·.isImposter) = some true ∧
         ∀ i ∈ [2], 0 < voteCountFor votes4 i))) ∧
    (psFour ≠ [] → (∀ i, voteCountFor votes4 i = 0) →
      (getVoteResults psFour votes4 [2]).head?.map (·.rosterIndex) = some 0) :=
  getVoteResults_spec psFour votes4 [2] (by decide) (by decide)

end SchoolWho
